import Mathlib

/-
Verification development for the edge2html build pipeline (src/index.js).

Paths and file contents are modelled as lists of characters.  The JS string
methods used by the program (startsWith, endsWith, includes, replace with a
string pattern, slice with a negative bound) are embedded as executable
functions below.  The filesystem is a small state record: the immediate
entries of the watched source directory, the parseable-or-not configuration
file, the in-memory render context, and the destination tree.  The template
engine together with the post-processing passes is an opaque parameter of
type Str to context to Except Unit Str, as the repository treats it as an
external collaborator.
-/

namespace Edge2Html

/-- Characters of a string; paths and contents are lists of characters. -/
abbrev Str := List Char

/-- Convenience conversion for concrete inputs. -/
def str (x : String) : Str := x.data

/-- JS s.startsWith(pat): the embedded check is pat laid over the front of s. -/
def isPre : Str → Str → Bool
  | [], _ => true
  | _ :: _, [] => false
  | p :: ps, c :: cs => if p = c then isPre ps cs else false

/-- JS s.endsWith(pat). -/
def isSuf (pat s : Str) : Bool := isPre pat.reverse s.reverse

/-- JS s.includes(pat): pat occurs contiguously somewhere in s. -/
def isInf (pat : Str) : Str → Bool
  | [] => isPre pat []
  | c :: cs => isPre pat (c :: cs) || isInf pat cs

/-- JS s.replace(pat, repl) with a string pattern: only the first occurrence
of pat in s is replaced. -/
def replaceFirst : Str → Str → Str → Str
  | [], pat, repl => if isPre pat [] then repl else []
  | c :: cs, pat, repl =>
    if isPre pat (c :: cs) then repl ++ (c :: cs).drop pat.length
    else c :: replaceFirst cs pat repl

/-- JS s.slice(0, -4): everything but the last four characters. -/
def slice04 (s : Str) : Str := s.take (s.length - 4)

/-- src/index.js setDest: file.replace(src, dst).slice(0, -4) + html. -/
def setDest (src dst file : Str) : Str :=
  slice04 (replaceFirst file src dst) ++ str "html"

/-- JS filename.split on slash, then pop: the part after the last slash. -/
def basename (p : Str) : Str :=
  (p.reverse.takeWhile (fun c => c ≠ '/')).reverse

/-- Node path.parse restricted to the fields the program reads: the pair of
name (base without the extension) and ext (from the last dot on).  A base
with no dot, or whose only dot is its first character, has an empty ext. -/
def parseNameExt (base : Str) : Str × Str :=
  match base.reverse.dropWhile (fun c => c ≠ '.') with
  | [] => (base, [])
  | _ :: restRev =>
    if restRev = [] then (base, [])
    else (restRev.reverse, '.' :: (base.reverse.takeWhile (fun c => c ≠ '.')).reverse)

/-- The backslash normalisation applied to every watched path. -/
def bsFix (t : Str) : Str := t.map (fun c => if c = '\\' then '/' else c)

/-- One regular file of the watched source directory. -/
structure Entry where
  name : Str
  content : Str
deriving DecidableEq

/-- The state the program reads and writes: immediate regular files of the
source directory, names of its immediate subdirectories, the configuration
file (none when missing or unparseable), the in-memory context variable, and
the destination tree as an association of path to content. -/
structure State (Ctx : Type) where
  files : List Entry
  dirs : List Str
  dataFile : Option Ctx
  data : Ctx
  dest : List (Str × Str)
deriving DecidableEq

/-- Names of every immediate entry of the source directory, as returned by a
non-recursive directory listing. -/
def entryNames {Ctx : Type} (st : State Ctx) : List Str :=
  st.files.map Entry.name ++ st.dirs

/-- util.readdir: list the directory, optionally prepend the directory path,
optionally keep only the names with the given suffix. -/
def readdir (names : List Str) (dirPath : Str) (extname : Option Str)
    (prependPath : Bool) : List Str :=
  let files := if prependPath then names.map (fun f => dirPath ++ '/' :: f) else names
  match extname with
  | some e => files.filter (fun f => isSuf e f)
  | none => files

/-- allFiles: every .edge entry of the source directory, path-prefixed. -/
def allFiles {Ctx : Type} (src : Str) (st : State Ctx) : List Str :=
  readdir (entryNames st) src (some (str ".edge")) true

/-- fs.readFile: the content of an existing immediate source file, an error
for any other path. -/
def readFileOne {Ctx : Type} (src : Str) (st : State Ctx) (p : Str) : Except Unit Str :=
  match st.files.findSome? (fun e => if src ++ '/' :: e.name = p then some e.content else none) with
  | some c => .ok c
  | none => .error ()

/-- Promise.all over a list of fallible actions: every result in order when
all succeed, an error as soon as any fails. -/
def promiseAll (f : Str → Except Unit Str) : List Str → Except Unit (List Str)
  | [] => .ok []
  | p :: ps =>
    match f p, promiseAll f ps with
    | .ok c, .ok cs => .ok (c :: cs)
    | .error e, _ => .error e
    | .ok _, .error e => .error e

/-- getChangedTarget: for a changed partial (name starting with the
underscore marker) scan the content of every .edge file for the bare name;
for anything else the changed file alone. -/
def getChangedTarget {Ctx : Type} (src : Str) (changedName : Str) (target : Str)
    (st : State Ctx) : Except Unit (List Str) :=
  if isPre (str "_") changedName then
    let files := allFiles src st
    match promiseAll (readFileOne src st) files with
    | .error e => .error e
    | .ok contents =>
      .ok (((files.zip contents).filter (fun fc => isInf changedName fc.2)).map Prod.fst)
  else
    .ok [target]

/-- renderToHtml: the opaque engine applied to the basename of the file and
the current context; the engine parameter also absorbs the post-processing
passes (remote includes and, in build mode, beautification). -/
def renderToHtml {Ctx : Type} (r : Str → Ctx → Except Unit Str) (data : Ctx)
    (filename : Str) : Except Unit Str :=
  r (basename filename) data

/-- One write into the destination tree, overwriting any previous entry. -/
def writeOne (d : List (Str × Str)) (p c : Str) : List (Str × Str) :=
  (d.filter (fun e => decide (e.1 ≠ p))) ++ [(p, c)]

/-- util.writeFile over parallel lists of paths and contents. -/
def writeAll : List Str → List Str → List (Str × Str) → List (Str × Str)
  | p :: ps, c :: cs, d => writeAll ps cs (writeOne d p c)
  | _, _, d => d

/-- util.rm: delete the given destination paths; missing paths are ignored. -/
def rmAll (paths : List Str) (d : List (Str × Str)) : List (Str × Str) :=
  d.filter (fun e => decide (e.1 ∉ paths))

/-- html: render the given files (every .edge file when called with none) and
write the outputs to their mapped destinations.  The renders are joined with
a single all-or-nothing join, so one failure yields an error before any
write happens. -/
def html {Ctx : Type} (r : Str → Ctx → Except Unit Str) (src dst : Str)
    (filesArg : Option (List Str)) (st : State Ctx) : Except Unit (State Ctx) :=
  let files := match filesArg with
    | none => allFiles src st
    | some fs => fs
  let destFiles := files.map (setDest src dst)
  match promiseAll (renderToHtml r st.data) files with
  | .error e => .error e
  | .ok contents => .ok { st with dest := writeAll destFiles contents st.dest }

/-- The chokidar event kinds the watcher can deliver. -/
inductive Event
  | add | addDir | change | unlink | unlinkDir
deriving DecidableEq

/-- Result of one delivery of the watch callback: the state afterwards, the
final value of the targets variable handed to html, and an error that
escaped the callback uncaught (an unhandled promise rejection), if any. -/
structure HandlerResult (Ctx : Type) where
  state : State Ctx
  impact : List Str
  escaped : Option Unit
deriving DecidableEq

/-- The body of the watch callback in htmlWatch, after the fixed 200 ms
timer fires: normalise the path, parse it, dispatch on extension and event
kind, and finally run html on the accumulated targets.  A thrown error
leaves every mutation made so far in place and escapes uncaught. -/
def handleEvent {Ctx : Type} (r : Str → Ctx → Except Unit Str) (src dst : Str)
    (event : Event) (target0 : Str) (st : State Ctx) : HandlerResult Ctx :=
  let target := bsFix target0
  let parsed := parseNameExt (basename target)
  if parsed.2 = str ".edge" then
    match event with
    | .add | .change =>
      match getChangedTarget src parsed.1 target st with
      | .error e => ⟨st, [], some e⟩
      | .ok targets =>
        match html r src dst (some targets) st with
        | .error e => ⟨st, targets, some e⟩
        | .ok st2 => ⟨st2, targets, none⟩
    | .unlink =>
      let removedTarget := slice04 (replaceFirst target src dst) ++ str "html"
      let st2 : State Ctx := { st with dest := rmAll [removedTarget] st.dest }
      match html r src dst (some []) st2 with
      | .error e => ⟨st2, [], some e⟩
      | .ok st3 => ⟨st3, [], none⟩
    | _ =>
      match html r src dst (some []) st with
      | .error e => ⟨st, [], some e⟩
      | .ok st2 => ⟨st2, [], none⟩
  else if parsed.2 = str ".json" then
    match st.dataFile with
    | none => ⟨st, [], some ()⟩
    | some d =>
      let st2 : State Ctx := { st with data := d }
      let targets := allFiles src st2
      match html r src dst (some targets) st2 with
      | .error e => ⟨st2, targets, some e⟩
      | .ok st3 => ⟨st3, targets, none⟩
  else
    match html r src dst (some []) st with
    | .error e => ⟨st, [], some e⟩
    | .ok st2 => ⟨st2, [], none⟩

/-- Sequential handling of a list of watch events, counting how often the
path p appears in a dispatched target list, that is how often p is
re-rendered.  The watcher gives every event its own 200 ms timer, so equal
delays keep the arrival order and every event is dispatched exactly once. -/
def renderCount {Ctx : Type} (r : Str → Ctx → Except Unit Str) (src dst : Str)
    (events : List (Event × Str)) (st : State Ctx) (p : Str) : Nat :=
  match events with
  | [] => 0
  | (ev, t) :: rest =>
    let res := handleEvent r src dst ev t st
    (if p ∈ res.impact then 1 else 0) + renderCount r src dst rest res.state p

/-- Modelled from the words of the spec for claim C1: the pages, that is the
.edge files not starting with the underscore marker, whose raw content
contains the changed partial bare name. -/
def specPartialImpact {Ctx : Type} (src : Str) (name : Str) (st : State Ctx) : List Str :=
  (st.files.filter (fun e =>
      !(isPre (str "_") e.name) && isSuf (str ".edge") e.name
        && isInf name e.content)).map (fun e => src ++ '/' :: e.name)

/-- Modelled from the words of the spec for claim C3: the full current set of
pages, and only pages. -/
def specAllPages {Ctx : Type} (src : Str) (st : State Ctx) : List Str :=
  (st.files.filter (fun e =>
      !(isPre (str "_") e.name) && isSuf (str ".edge") e.name)).map
    (fun e => src ++ '/' :: e.name)

/-- What the impact scan of a partial actually collects: every .edge file of
the source directory, page or partial, whose content contains the name. -/
def edgeImpact {Ctx : Type} (src : Str) (name : Str) (st : State Ctx) : List Str :=
  (st.files.filter (fun e =>
      isSuf (str ".edge") e.name && isInf name e.content)).map
    (fun e => src ++ '/' :: e.name)

/-- A renderer that always succeeds, for concrete runs. -/
def r0 : Str → Nat → Except Unit Str := fun _ _ => .ok (str "out")

/-- A renderer that fails on the page a.edge and succeeds elsewhere. -/
def rFail : Str → Nat → Except Unit Str :=
  fun n _ => if n = str "a.edge" then .error () else .ok (str "out")

def src0 : Str := str "src"

def dst0 : Str := str "dst"

def st1 : State Nat :=
  ⟨[⟨str "_a.edge", str "uses _b"⟩, ⟨str "_b.edge", str "x"⟩,
    ⟨str "page.edge", str "hello _b"⟩], [], some 0, 0, []⟩

def st3 : State Nat := ⟨[⟨str "_p.edge", str "y"⟩], [], some 1, 0, []⟩

def st4 : State Nat := ⟨[⟨str "_sidebar.edge", str "z"⟩], [], some 0, 0, []⟩

def st5 : State Nat := ⟨[], [], some 0, 0, [(str "dst/_a.html", str "old")]⟩

def st6 : State Nat :=
  ⟨[⟨str "a.edge", str ""⟩, ⟨str "b.edge", str ""⟩], [], some 1, 0, []⟩

def st8 : State Nat :=
  ⟨[⟨str "p.edge", str ""⟩], [], none, 7, [(str "dst/p.html", str "keep")]⟩

def st9 : State Nat := ⟨[⟨str "a.edge", str ""⟩], [], some 0, 0, []⟩

def st10 : State Nat :=
  ⟨[⟨str "index.edge", str ""⟩, ⟨str "_part.edge", str ""⟩],
    [str "assets"], some 0, 0, []⟩

def st5b : State Nat :=
  ⟨[], [], some 0, 0, [(str "dst/a.html", str "old"), (str "dst/b.html", str "keep")]⟩

def st3fin : State Nat :=
  ⟨[⟨str "_p.edge", str "y"⟩], [], some 1, 1, [(str "dst/_p.html", str "out")]⟩

/-! ### String lemmas -/

theorem isPre_refl_append (p t : Str) : isPre p (p ++ t) = true := by
  induction p with
  | nil => rfl
  | cons c cs ih => simp [isPre, ih]

theorem replaceFirst_at_start (p t repl : Str) :
    replaceFirst (p ++ t) p repl = repl ++ t := by
  cases p with
  | nil =>
    cases t with
    | nil => simp [replaceFirst, isPre]
    | cons c cs => simp [replaceFirst, isPre]
  | cons a as =>
    have h : isPre (a :: as) (a :: (as ++ t)) = true := isPre_refl_append (a :: as) t
    show replaceFirst (a :: (as ++ t)) (a :: as) repl = repl ++ t
    simp [replaceFirst, h, List.drop_left]

theorem take_edge (a : Str) : (a ++ str ".edge").take (a.length + 1) = a ++ ['.'] := by
  induction a with
  | nil => rfl
  | cons c cs ih => simp [List.take_succ_cons, ih]

theorem slice04_edge (a : Str) : slice04 (a ++ str ".edge") = a ++ ['.'] := by
  have h5 : (str ".edge").length = 5 := rfl
  have hl : (a ++ str ".edge").length - 4 = a.length + 1 := by
    simp [List.length_append, h5]
  rw [slice04, hl]
  exact take_edge a

theorem setDest_formula (src dst stem : Str) :
    setDest src dst (src ++ (stem ++ str ".edge")) = dst ++ (stem ++ str ".html") := by
  rw [setDest, replaceFirst_at_start]
  rw [show dst ++ (stem ++ str ".edge") = (dst ++ stem) ++ str ".edge" from
    (List.append_assoc _ _ _).symm]
  rw [slice04_edge, List.append_assoc, List.append_assoc]
  rfl

/-- Claim C7 (confirmed): setDest strips the source root, prepends the
destination root, and swaps the trailing .edge extension for .html, and the
mapping is injective on distinct page paths of one source tree. -/
theorem c7_setDest_correct (src dst s1 s2 : Str) :
    setDest src dst (src ++ s1 ++ str ".edge") = dst ++ s1 ++ str ".html" ∧
    (src ++ s1 ++ str ".edge" ≠ src ++ s2 ++ str ".edge" →
      setDest src dst (src ++ s1 ++ str ".edge") ≠
        setDest src dst (src ++ s2 ++ str ".edge")) := by
  have h1 : setDest src dst (src ++ s1 ++ str ".edge") = dst ++ s1 ++ str ".html" := by
    rw [List.append_assoc, setDest_formula, List.append_assoc]
  have h2 : setDest src dst (src ++ s2 ++ str ".edge") = dst ++ s2 ++ str ".html" := by
    rw [List.append_assoc, setDest_formula, List.append_assoc]
  refine ⟨h1, fun hne heq => hne ?_⟩
  rw [h1, h2] at heq
  have h3 : s1 ++ str ".html" = s2 ++ str ".html" := by
    rw [List.append_assoc, List.append_assoc] at heq
    exact List.append_cancel_left heq
  have hs : s1 = s2 := List.append_cancel_right h3
  rw [hs]

/-- Claim C7 witness: the theorem applied to a concrete tree. -/
theorem c7_witness :
    setDest (str "src") (str "dst") (str "src" ++ str "/a" ++ str ".edge") =
      str "dst" ++ str "/a" ++ str ".html" ∧
    setDest (str "src") (str "dst") (str "src" ++ str "/a" ++ str ".edge") ≠
      setDest (str "src") (str "dst") (str "src" ++ str "/b" ++ str ".edge") :=
  ⟨(c7_setDest_correct (str "src") (str "dst") (str "/a") (str "/b")).1,
   (c7_setDest_correct (str "src") (str "dst") (str "/a") (str "/b")).2 (by decide)⟩

/-! ### Handler lemmas -/

theorem html_empty {Ctx : Type} (r : Str → Ctx → Except Unit Str) (src dst : Str)
    (st : State Ctx) : html r src dst (some []) st = .ok st := rfl

theorem allFiles_data_irrel {Ctx : Type} (src : Str) (st : State Ctx) (d : Ctx) :
    allFiles src { st with data := d } = allFiles src st := rfl

theorem promiseAll_error (g : Str → Except Unit Str) (l : List Str) (f : Str)
    (hf : f ∈ l) (he : g f = .error ()) : promiseAll g l = .error () := by
  induction l with
  | nil => cases hf
  | cons a t ih =>
    rcases List.mem_cons.mp hf with h | h
    · subst h
      cases hrec : promiseAll g t <;> simp [promiseAll, he, hrec]
    · have hrec := ih h
      cases hga : g a <;> simp [promiseAll, hga, hrec]

theorem impact_of_page_event {Ctx : Type} (r : Str → Ctx → Except Unit Str)
    (src dst : Str) (ev : Event) (target : Str) (st : State Ctx)
    (hext : (parseNameExt (basename (bsFix target))).2 = str ".edge")
    (hname : isPre (str "_") (parseNameExt (basename (bsFix target))).1 = false)
    (hev : ev = Event.add ∨ ev = Event.change) :
    (handleEvent r src dst ev target st).impact = [bsFix target] := by
  have htg : getChangedTarget src (parseNameExt (basename (bsFix target))).1
      (bsFix target) st = .ok [bsFix target] := by
    simp [getChangedTarget, hname]
  rcases hev with h | h <;> subst h <;>
    cases hh : html r src dst (some [bsFix target]) st <;>
    simp [handleEvent, hext, htg, hh]

/-- Claim C2 (confirmed): a created-or-modified event on a page, that is a
.edge file whose name does not start with the underscore marker, resolves to
the singleton impact set holding exactly that file. -/
theorem c2_page_impact_singleton {Ctx : Type} (r : Str → Ctx → Except Unit Str)
    (src dst : Str) (ev : Event) (target : Str) (st : State Ctx)
    (hext : (parseNameExt (basename (bsFix target))).2 = str ".edge")
    (hname : isPre (str "_") (parseNameExt (basename (bsFix target))).1 = false)
    (hev : ev = Event.add ∨ ev = Event.change) :
    (handleEvent r src dst ev target st).impact = [bsFix target] :=
  impact_of_page_event r src dst ev target st hext hname hev

/-- Claim C2 witness: a change event on the page index.edge dispatches the
singleton impact set. -/
theorem c2_witness :
    (handleEvent r0 src0 dst0 .change (str "src/index.edge") st10).impact =
      [str "src/index.edge"] :=
  c2_page_impact_singleton r0 src0 dst0 .change (str "src/index.edge") st10
    (by decide) (by decide) (Or.inr rfl)

/-- Claim C3 counterexample: on a configuration change with one partial
_p.edge in the tree, the dispatched impact set is the full .edge listing,
which contains the partial; the set of pages alone is empty, so the impact
set is not the set of pages. -/
theorem c3_counterexample :
    (handleEvent r0 src0 dst0 .change (str "src/data.json") st3).impact =
      [str "src/_p.edge"] ∧
    specAllPages src0 st3 = [] ∧ ([str "src/_p.edge"] : List Str) ≠ [] :=
  ⟨by rfl, rfl, by decide⟩

/-- Claim C3 (corrected): any event on a .json path reloads the context from
the configuration file and dispatches the full current .edge listing, pages
and partials alike, to the batch writer. -/
theorem c3_config_rebuild_amended {Ctx : Type} (r : Str → Ctx → Except Unit Str)
    (src dst target : Str) (ev : Event) (st : State Ctx) (d : Ctx) (stFin : State Ctx)
    (hjson : (parseNameExt (basename (bsFix target))).2 = str ".json")
    (hdata : st.dataFile = some d)
    (hhtml : html r src dst (some (allFiles src st)) { st with data := d } = .ok stFin) :
    handleEvent r src dst ev target st = ⟨stFin, allFiles src st, none⟩ := by
  have hne : (str ".json" : Str) ≠ str ".edge" := by decide
  rw [hdata] at hhtml
  have ha : allFiles src ({ st with dataFile := some d, data := d } : State Ctx) =
      allFiles src st := rfl
  simp [handleEvent, hjson, hdata, hne, ha, hhtml]

/-- Claim C3 witness: the config rebuild applied to the one-partial tree. -/
theorem c3_witness :
    handleEvent r0 src0 dst0 .change (str "src/data.json") st3 =
      ⟨st3fin, [str "src/_p.edge"], none⟩ :=
  c3_config_rebuild_amended r0 src0 dst0 (str "src/data.json") .change st3 1 st3fin
    (by decide) rfl (by rfl)

/-- Claim C4 (code_bug): a full build renders every .edge file, partials
included, and writes the partial-derived destination path; here the partial
_sidebar.edge produces the destination entry dst/_sidebar.html, which is
exactly setDest of the partial source path. -/
theorem c4_partial_written_bug :
    html r0 src0 dst0 none st4 =
      .ok ⟨st4.files, [], some 0, 0, [(str "dst/_sidebar.html", str "out")]⟩ ∧
    isPre (str "_") (basename (str "src/_sidebar.edge")) = true ∧
    setDest src0 dst0 (str "src/_sidebar.edge") = str "dst/_sidebar.html" :=
  ⟨by rfl, by rfl, by rfl⟩

/-- Claim C5 counterexample: a delete event on the partial _a.edge removes
the destination entry dst/_a.html, so a partial delete does delete a
destination file when one exists. -/
theorem c5_counterexample :
    (handleEvent r0 src0 dst0 .unlink (str "src/_a.edge") st5).state.dest = [] ∧
    st5.dest = [(str "dst/_a.html", str "old")] :=
  ⟨by rfl, rfl⟩

/-- Claim C5 (corrected): a delete event on any .edge source, page or
partial, removes exactly the mapped destination path setDest of the target
and changes nothing else; no dependent is re-rendered. -/
theorem c5_unlink_amended {Ctx : Type} (r : Str → Ctx → Except Unit Str)
    (src dst target : Str) (st : State Ctx)
    (hext : (parseNameExt (basename (bsFix target))).2 = str ".edge") :
    handleEvent r src dst .unlink target st =
      ⟨{ st with
          dest := st.dest.filter (fun e => decide (e.1 ≠ setDest src dst (bsFix target))) },
        [], none⟩ := by
  simp [handleEvent, hext, html_empty, rmAll, setDest]

/-- Claim C5 witness: deleting the page a.edge removes exactly dst/a.html
and keeps the unrelated destination entry. -/
theorem c5_witness :
    handleEvent r0 src0 dst0 .unlink (str "src/a.edge") st5b =
      ⟨⟨[], [], some 0, 0, [(str "dst/b.html", str "keep")]⟩, [], none⟩ := by
  exact c5_unlink_amended r0 src0 dst0 (str "src/a.edge") st5b (by decide)

/-- Claim C6 counterexample: in a config-change batch over the pages a.edge
and b.edge, the renderer fails on a.edge only, yet nothing at all is
written: the batch errors out, the destination tree stays empty, and b.edge
renders fine on its own. -/
theorem c6_counterexample :
    handleEvent rFail src0 dst0 .change (str "src/data.json") st6 =
      ⟨{ st6 with data := 1 }, [str "src/a.edge", str "src/b.edge"], some ()⟩ ∧
    renderToHtml rFail 1 (str "src/b.edge") = .ok (str "out") ∧
    st6.dest = [] :=
  ⟨by decide, by rfl, rfl⟩

/-- Claim C6 (corrected): a render failure for any one page of a batch
aborts the whole batch before its write phase, so no page of the batch is
written; failures short-circuit instead of being collected per item. -/
theorem c6_render_failure_aborts_batch {Ctx : Type} (r : Str → Ctx → Except Unit Str)
    (src dst f : Str) (files : List Str) (st : State Ctx)
    (hf : f ∈ files) (herr : renderToHtml r st.data f = .error ()) :
    html r src dst (some files) st = .error () := by
  have hp : promiseAll (renderToHtml r st.data) files = .error () :=
    promiseAll_error _ files f hf herr
  simp [html, hp]

/-- Claim C6 witness: the failing batch over a.edge and b.edge. -/
theorem c6_witness :
    html rFail src0 dst0 (some [str "src/a.edge", str "src/b.edge"]) st6 = .error () :=
  c6_render_failure_aborts_batch rFail src0 dst0 (str "src/a.edge")
    [str "src/a.edge", str "src/b.edge"] st6 (by decide) (by rfl)

/-- Claim C8 (code_bug): a change event on the configuration path while the
configuration file is missing or malformed leaves everything untouched, but
the error escapes the watch callback uncaught instead of being logged and
skipped: the callback has no catch, so the rejection is unhandled. -/
theorem c8_config_reload_uncaught :
    handleEvent r0 src0 dst0 .change (str "src/data.json") st8 = ⟨st8, [], some ()⟩ ∧
    st8.dataFile = none ∧ st8.data = 7 :=
  ⟨by rfl, rfl, rfl⟩

/-! ### Watch-loop dispatch counting -/

/-- Claim C9 counterexample: two change events on the same page arriving
together are dispatched twice, so the page is re-rendered twice, not once. -/
theorem c9_counterexample :
    renderCount r0 src0 dst0
      [(.change, str "src/a.edge"), (.change, str "src/a.edge")] st9
      (str "src/a.edge") = 2 ∧ (2 : Nat) > 1 :=
  ⟨by decide, by decide⟩

/-- Claim C9 (corrected): the watcher gives every event its own fixed 200 ms
timer and never coalesces, so a burst of n change events on one page
re-renders that page exactly n times. -/
theorem c9_no_debounce_amended {Ctx : Type} (r : Str → Ctx → Except Unit Str)
    (src dst target : Str) (st : State Ctx) (n : Nat)
    (hext : (parseNameExt (basename (bsFix target))).2 = str ".edge")
    (hname : isPre (str "_") (parseNameExt (basename (bsFix target))).1 = false) :
    renderCount r src dst (List.replicate n (Event.change, target)) st (bsFix target) = n := by
  induction n generalizing st with
  | zero => rfl
  | succ k ih =>
    have himp := impact_of_page_event r src dst Event.change target st hext hname (Or.inr rfl)
    simp [List.replicate_succ, renderCount, himp, ih, Nat.add_comm]

/-- Claim C9 witness: a two-event burst on a.edge yields two re-renders. -/
theorem c9_witness :
    renderCount r0 src0 dst0 (List.replicate 2 (Event.change, str "src/a.edge")) st9
      (str "src/a.edge") = 2 :=
  c9_no_debounce_amended r0 src0 dst0 (str "src/a.edge") st9 2 (by decide) (by decide)

/-! ### List helper lemmas -/

theorem filter_map_comm {α β : Type} (l : List α) (f : α → β) (p : β → Bool) :
    (l.map f).filter p = (l.filter (fun a => p (f a))).map f := by
  induction l with
  | nil => rfl
  | cons a t ih => cases h : p (f a) <;> simp [List.filter_cons, h, ih]

theorem zip_map_same {α β γ : Type} (l : List α) (f : α → β) (g : α → γ) :
    (l.map f).zip (l.map g) = l.map (fun a => (f a, g a)) := by
  induction l with
  | nil => rfl
  | cons a t ih => simp [ih]

theorem filter_false_nil {α : Type} (l : List α) (p : α → Bool)
    (h : ∀ a ∈ l, p a = false) : l.filter p = [] := by
  induction l with
  | nil => rfl
  | cons a t ih =>
    have ha := h a (List.mem_cons_self a t)
    simp [List.filter_cons, ha, ih (fun x hx => h x (List.mem_cons_of_mem a hx))]

theorem isPre_stop : ∀ (p m rest : Str), (∀ c ∈ p, c ≠ '/') →
    isPre p (m ++ '/' :: rest) = isPre p m := by
  intro p
  induction p with
  | nil => intro m rest _; rfl
  | cons c cs ih =>
    intro m rest h
    have hc : c ≠ '/' := h c (List.mem_cons_self c cs)
    have hcs : ∀ x ∈ cs, x ≠ '/' := fun x hx => h x (List.mem_cons_of_mem c hx)
    cases m with
    | nil => simp [isPre, hc]
    | cons a ms =>
      show (if c = a then isPre cs (ms ++ '/' :: rest) else false) =
        (if c = a then isPre cs ms else false)
      rw [ih ms rest hcs]

theorem isSuf_slash (pat s n : Str) (hp : ∀ c ∈ pat, c ≠ '/') :
    isSuf pat (s ++ '/' :: n) = isSuf pat n := by
  have hrev : (s ++ '/' :: n).reverse = n.reverse ++ '/' :: s.reverse := by
    simp
  rw [isSuf, hrev, isPre_stop pat.reverse n.reverse s.reverse
    (fun c hc => hp c (List.mem_reverse.mp hc))]
  rfl

/-! ### The directory listing -/

theorem allFiles_entries {Ctx : Type} (src : Str) (st : State Ctx)
    (hdirs : ∀ d ∈ st.dirs, isSuf (str ".edge") d = false) :
    allFiles src st =
      (st.files.filter (fun e => isSuf (str ".edge") e.name)).map
        (fun e => src ++ '/' :: e.name) := by
  have hstep : allFiles src st =
      ((st.files.map (fun e => src ++ '/' :: e.name)).filter
          (fun f => isSuf (str ".edge") f)) ++
        ((st.dirs.map (fun f => src ++ '/' :: f)).filter
          (fun f => isSuf (str ".edge") f)) := by
    simp [allFiles, readdir, entryNames, List.filter_append, List.map_map, Function.comp]
    rfl
  have h1 : (st.dirs.map (fun f => src ++ '/' :: f)).filter
      (fun f => isSuf (str ".edge") f) = [] := by
    apply filter_false_nil
    intro a ha
    rcases List.mem_map.mp ha with ⟨d, hd, rfl⟩
    rw [isSuf_slash _ _ _ (by decide)]
    exact hdirs d hd
  rw [hstep, h1, List.append_nil, filter_map_comm]
  have h2 : ∀ e : Entry, isSuf (str ".edge") (src ++ '/' :: e.name) =
      isSuf (str ".edge") e.name :=
    fun e => isSuf_slash _ _ _ (by decide)
  simp only [h2]

/-- Claim C10 (confirmed): the enumeration behind full builds, config
rebuilds and partial-impact scans lists exactly the immediate entries of the
source directory whose names end in .edge, path-prefixed; no path with a
further directory component below the source root is ever listed, hence a
template inside a subdirectory is never rendered, scanned or written. -/
theorem c10_allFiles_immediate {Ctx : Type} (src : Str) (st : State Ctx)
    (hnames : ∀ n ∈ entryNames st, ('/' : Char) ∉ n) :
    allFiles src st =
      ((entryNames st).filter (fun n => isSuf (str ".edge") n)).map
        (fun n => src ++ '/' :: n) ∧
    ∀ d f : Str, src ++ '/' :: (d ++ '/' :: f) ∉ allFiles src st := by
  have h1 : allFiles src st =
      ((entryNames st).filter (fun n => isSuf (str ".edge") n)).map
        (fun n => src ++ '/' :: n) := by
    have hstep : allFiles src st =
        ((entryNames st).map (fun n => src ++ '/' :: n)).filter
          (fun f => isSuf (str ".edge") f) := by
      simp [allFiles, readdir]
    rw [hstep, filter_map_comm]
    congr 1
    apply List.filter_congr
    intro n _
    exact isSuf_slash (str ".edge") src n (by decide)
  refine ⟨h1, ?_⟩
  intro d f hmem
  rw [h1] at hmem
  rcases List.mem_map.mp hmem with ⟨n, hn, heq⟩
  have hne : n ∈ entryNames st := List.mem_of_mem_filter hn
  have hcons : '/' :: n = '/' :: (d ++ '/' :: f) := List.append_cancel_left heq
  have hn2 : n = d ++ '/' :: f := by injection hcons
  have hsl : ('/' : Char) ∈ n := by
    rw [hn2]
    exact List.mem_append_right d (List.mem_cons_self _ _)
  exact hnames n hne hsl

/-- Claim C10 witness: the two-entry tree with an assets subdirectory. -/
theorem c10_witness :
    allFiles src0 st10 =
      ((entryNames st10).filter (fun n => isSuf (str ".edge") n)).map
        (fun n => src0 ++ '/' :: n) ∧
    str "src/d/f.edge" ∉ allFiles src0 st10 :=
  ⟨(c10_allFiles_immediate src0 st10 (by decide)).1,
   (c10_allFiles_immediate src0 st10 (by decide)).2 (str "d") (str "f.edge")⟩

/-! ### The partial-impact scan -/

theorem lookup_self (src : Str) (l : List Entry) (e : Entry)
    (hnd : (l.map Entry.name).Nodup) (he : e ∈ l) :
    l.findSome? (fun x => if src ++ '/' :: x.name = src ++ '/' :: e.name
      then some x.content else none) = some e.content := by
  induction l with
  | nil => cases he
  | cons a t ih =>
    have hnd2 : a.name ∉ t.map Entry.name ∧ (t.map Entry.name).Nodup := by
      rw [List.map_cons, List.nodup_cons] at hnd
      exact hnd
    rw [List.findSome?_cons]
    by_cases hae : a.name = e.name
    · have hpa : src ++ '/' :: a.name = src ++ '/' :: e.name := by rw [hae]
      rw [if_pos hpa]
      rcases List.mem_cons.mp he with h | h
      · rw [h]
      · exfalso
        have hmem : e.name ∈ t.map Entry.name := List.mem_map_of_mem Entry.name h
        exact hnd2.1 (hae ▸ hmem)
    · have hne : ¬ (src ++ '/' :: a.name = src ++ '/' :: e.name) := by
        intro hcontra
        apply hae
        have hcons := List.append_cancel_left hcontra
        injection hcons
      rw [if_neg hne]
      rcases List.mem_cons.mp he with h | h
      · exact absurd (by rw [h]) hae
      · exact ih hnd2.2 h

theorem readFileOne_self {Ctx : Type} (src : Str) (st : State Ctx) (e : Entry)
    (hnd : (st.files.map Entry.name).Nodup) (he : e ∈ st.files) :
    readFileOne src st (src ++ '/' :: e.name) = .ok e.content := by
  rw [readFileOne, lookup_self src st.files e hnd he]

theorem promiseAll_contents {Ctx : Type} (src : Str) (st : State Ctx)
    (hnd : (st.files.map Entry.name).Nodup) :
    ∀ (l : List Entry), (∀ e ∈ l, e ∈ st.files) →
      promiseAll (readFileOne src st) (l.map (fun e => src ++ '/' :: e.name)) =
        .ok (l.map Entry.content) := by
  intro l
  induction l with
  | nil => intro _; rfl
  | cons a t ih =>
    intro hsub
    rw [List.map_cons, List.map_cons]
    simp only [promiseAll]
    rw [readFileOne_self src st a hnd (hsub a (List.mem_cons_self a t))]
    rw [ih (fun e he2 => hsub e (List.mem_cons_of_mem a he2))]

/-- Claim C1 counterexample: a change event on the partial _b.edge collects
the partial _a.edge, whose content mentions _b, into the impact set; the set
of pages containing _b is just page.edge, so the impact set is not the set
of pages containing the bare name. -/
theorem c1_counterexample :
    getChangedTarget src0 (str "_b") (str "src/_b.edge") st1 =
      .ok [str "src/_a.edge", str "src/page.edge"] ∧
    specPartialImpact src0 (str "_b") st1 = [str "src/page.edge"] ∧
    ([str "src/_a.edge", str "src/page.edge"] : List Str) ≠ [str "src/page.edge"] :=
  ⟨by rfl, by rfl, by decide⟩

/-- Claim C1 (corrected): a created-or-modified event on a partial resolves
to every .edge file of the source directory, page or partial alike, whose
raw content contains the bare changed name as a substring. -/
theorem c1_partial_impact_amended {Ctx : Type} (src name target : Str) (st : State Ctx)
    (hname : isPre (str "_") name = true)
    (hdirs : ∀ d ∈ st.dirs, isSuf (str ".edge") d = false)
    (hnd : (st.files.map Entry.name).Nodup) :
    getChangedTarget src name target st = .ok (edgeImpact src name st) := by
  have hall := allFiles_entries src st hdirs
  have hcont := promiseAll_contents src st hnd
    (st.files.filter (fun e => isSuf (str ".edge") e.name))
    (fun e he => List.mem_of_mem_filter he)
  simp only [getChangedTarget, hname, if_true, hall, hcont]
  rw [zip_map_same, filter_map_comm, List.map_map]
  rw [List.filter_filter]
  rw [edgeImpact]
  rw [List.filter_congr
    (fun a _ => Bool.and_comm (isInf name a.content) (isSuf (str ".edge") a.name))]
  rfl

/-- Claim C1 witness: the amended impact resolution on the three-file tree. -/
theorem c1_witness :
    getChangedTarget src0 (str "_b") (str "src/_b.edge") st1 =
      .ok (edgeImpact src0 (str "_b") st1) :=
  c1_partial_impact_amended src0 (str "_b") (str "src/_b.edge") st1
    (by rfl) (by decide) (by decide)

end Edge2Html
